import Mathlib

/-!
Verification of the strata interception pipeline and layer state store
(src/include/strata.h) against its natural-language specification.

The pipeline is embedded shallowly: a layer is a record of the hooks the
compile-time probes resolve for one fixed operation, and `Exec` is a pure
interpreter that returns the list of observable call events (hook entries
and core-function invocation) together with either the produced result or
the first uncaught exception.  Value-returning and void operations are
modelled separately, mirroring the two overload families in the source.
-/

/-- Observable call events emitted while `Strata::Exec` runs: entry into a
layer's resolved Before hook, invocation of the core function, and entry
into a layer's resolved After hook.  Layers are identified by a numeric id. -/
inductive Event where
  | before (lid : Nat)
  | core
  | after (lid : Nat)
  deriving DecidableEq

/-- A layer as seen by one fixed value-returning operation with argument
tuple `α`, return type `ρ` and exception type `ε`.  The `specificBefore` /
`genericBefore` fields record the outcome of the compile-time probes
`has_specific_before_impl` / `has_generic_before_impl` (strata.h lines
146-184) together with the behavior of `Layer::Impl<Op>::Before`; likewise
for After.  An After hook receives the current result (`Op::ReturnType&
result` in the source) and the arguments, and returns the possibly
rewritten result or throws. -/
structure LayerM (α ρ ε : Type) where
  lid : Nat
  specificBefore : Option (α → Except ε Unit)
  genericBefore : Option (α → Except ε Unit)
  specificAfter : Option (ρ → α → Except ε ρ)
  genericAfter : Option (ρ → α → Except ε ρ)

/-- A layer as seen by one fixed void operation: After hooks receive only
the arguments (void overload of `ApplyAfterIfExists`, strata.h lines
133-143). -/
structure LayerV (α ε : Type) where
  lid : Nat
  specificBefore : Option (α → Except ε Unit)
  genericBefore : Option (α → Except ε Unit)
  specificAfter : Option (α → Except ε Unit)
  genericAfter : Option (α → Except ε Unit)

/-- `Strata::ApplyBeforeIfExists` (strata.h lines 109-116): if the layer has
an operation-specific Before hook it is called, else if it has a generic
Before hook accepting the argument shape that one is called, else nothing
happens.  Both branches of the source call `Layer::Impl<Op>::Before`. -/
def ApplyBeforeIfExists (l : LayerM α ρ ε) (args : α) : List Event × Except ε Unit :=
  match l.specificBefore with
  | some h => ([Event.before l.lid], h args)
  | none =>
    match l.genericBefore with
    | some h => ([Event.before l.lid], h args)
    | none => ([], Except.ok ())

/-- The fold expression `(ApplyBeforeIfExists<Op, Layers>(args...), ...)` at
strata.h line 87: each layer's Before dispatch in list order, aborted by the first
exception. -/
def runBefores (ls : List (LayerM α ρ ε)) (args : α) : List Event × Except ε Unit :=
  match ls with
  | [] => ([], Except.ok ())
  | l :: rest =>
    let p := ApplyBeforeIfExists l args
    match p.snd with
    | Except.error e => (p.fst, Except.error e)
    | Except.ok _ =>
      let q := runBefores rest args
      (p.fst ++ q.fst, q.snd)

/-- The After dispatch for a single layer, the tail of the value overload of
`Strata::ApplyAfterIfExists` (strata.h lines 126-129): specific After if
present, else generic, else a no-op leaving the result unchanged. -/
def ApplyAfterOnce (l : LayerM α ρ ε) (result : ρ) (args : α) : List Event × Except ε ρ :=
  match l.specificAfter with
  | some h => ([Event.after l.lid], h result args)
  | none =>
    match l.genericAfter with
    | some h => ([Event.after l.lid], h result args)
    | none => ([], Except.ok result)

/-- Value overload of `Strata::ApplyAfterIfExists` (strata.h lines 120-130):
recurse on the remaining layers first, then run the first layer's After
dispatch, so the hooks run in reverse list order, each receiving the result
left by the previously invoked hook. -/
def ApplyAfterIfExists (ls : List (LayerM α ρ ε)) (result : ρ) (args : α) :
    List Event × Except ε ρ :=
  match ls with
  | [] => ([], Except.ok result)
  | first :: rest =>
    let p := ApplyAfterIfExists rest result args
    match p.snd with
    | Except.error e => (p.fst, Except.error e)
    | Except.ok r2 =>
      let q := ApplyAfterOnce first r2 args
      (p.fst ++ q.fst, q.snd)

/-- `Strata::Exec` for a value-returning operation (strata.h lines 65-102):
with an empty layer list the branch at line 78 returns `CORE_FUNC()`
directly; otherwise all Before dispatches run in list order, then the core
function, then the After chain, and the (possibly rewritten) result is
returned.  Any exception propagates unchanged and aborts the remainder. -/
def Exec (ls : List (LayerM α ρ ε)) (func : α → Except ε ρ) (args : α) :
    List Event × Except ε ρ :=
  if ls.isEmpty then
    ([Event.core], func args)
  else
    let p := runBefores ls args
    match p.snd with
    | Except.error e => (p.fst, Except.error e)
    | Except.ok _ =>
      match func args with
      | Except.error e => (p.fst ++ [Event.core], Except.error e)
      | Except.ok res =>
        let q := ApplyAfterIfExists ls res args
        (p.fst ++ [Event.core] ++ q.fst, q.snd)

/-- Void-operation twin of `ApplyBeforeIfExists` (the source template is the
same, strata.h lines 109-116). -/
def ApplyBeforeIfExistsV (l : LayerV α ε) (args : α) : List Event × Except ε Unit :=
  match l.specificBefore with
  | some h => ([Event.before l.lid], h args)
  | none =>
    match l.genericBefore with
    | some h => ([Event.before l.lid], h args)
    | none => ([], Except.ok ())

/-- The line-87 Before fold for a void operation. -/
def runBeforesV (ls : List (LayerV α ε)) (args : α) : List Event × Except ε Unit :=
  match ls with
  | [] => ([], Except.ok ())
  | l :: rest =>
    let p := ApplyBeforeIfExistsV l args
    match p.snd with
    | Except.error e => (p.fst, Except.error e)
    | Except.ok _ =>
      let q := runBeforesV rest args
      (p.fst ++ q.fst, q.snd)

/-- Single-layer After dispatch of the void overload (strata.h lines
139-142): hooks receive only the arguments. -/
def ApplyAfterOnceV (l : LayerV α ε) (args : α) : List Event × Except ε Unit :=
  match l.specificAfter with
  | some h => ([Event.after l.lid], h args)
  | none =>
    match l.genericAfter with
    | some h => ([Event.after l.lid], h args)
    | none => ([], Except.ok ())

/-- Void overload of `Strata::ApplyAfterIfExists` (strata.h lines 133-143):
recurse on the remaining layers first, then dispatch the first layer. -/
def ApplyAfterIfExistsV (ls : List (LayerV α ε)) (args : α) : List Event × Except ε Unit :=
  match ls with
  | [] => ([], Except.ok ())
  | first :: rest =>
    let p := ApplyAfterIfExistsV rest args
    match p.snd with
    | Except.error e => (p.fst, Except.error e)
    | Except.ok _ =>
      let q := ApplyAfterOnceV first args
      (p.fst ++ q.fst, q.snd)

/-- `Strata::Exec` for a void operation (strata.h lines 65-102).  The empty
layer-list branch at line 76 executes `CORE_FUNC();` WITHOUT a return, so
control falls through: the line-87 fold over zero layers is a no-op, line
91 invokes `CORE_FUNC()` a second time, and line 92 then calls
`ApplyAfterIfExists<Op>(args...)`, which for the empty pack has no
deducible `First` template parameter and fails to compile.  The model
follows the source text's control flow through the double invocation and
treats the ill-formed empty After call as doing nothing. -/
def ExecVoid (ls : List (LayerV α ε)) (func : α → Except ε Unit) (args : α) :
    List Event × Except ε Unit :=
  if ls.isEmpty then
    match func args with
    | Except.error e => ([Event.core], Except.error e)
    | Except.ok _ =>
      match func args with
      | Except.error e => ([Event.core, Event.core], Except.error e)
      | Except.ok _ => ([Event.core, Event.core], Except.ok ())
  else
    let p := runBeforesV ls args
    match p.snd with
    | Except.error e => (p.fst, Except.error e)
    | Except.ok _ =>
      match func args with
      | Except.error e => (p.fst ++ [Event.core], Except.error e)
      | Except.ok _ =>
        let q := ApplyAfterIfExistsV ls args
        (p.fst ++ [Event.core] ++ q.fst, q.snd)

/-- Whether the probes resolve any Before hook for the layer. -/
def hasBeforeHook (l : LayerM α ρ ε) : Bool :=
  l.specificBefore.isSome || l.genericBefore.isSome

/-- Whether the probes resolve any After hook for the layer. -/
def hasAfterHook (l : LayerM α ρ ε) : Bool :=
  l.specificAfter.isSome || l.genericAfter.isSome

/-- Before-hook entry events of a layer list, in list order, one event per
layer that has a resolved Before hook. -/
def beforeEvents (ls : List (LayerM α ρ ε)) : List Event :=
  (ls.filter hasBeforeHook).map (fun l => Event.before l.lid)

/-- After-hook entry events of a layer list, in reverse list order, one
event per layer that has a resolved After hook. -/
def afterEventsRev (ls : List (LayerM α ρ ε)) : List Event :=
  (ls.reverse.filter hasAfterHook).map (fun l => Event.after l.lid)

/-- Void twin of `hasBeforeHook`. -/
def hasBeforeHookV (l : LayerV α ε) : Bool :=
  l.specificBefore.isSome || l.genericBefore.isSome

/-- Void twin of `hasAfterHook`. -/
def hasAfterHookV (l : LayerV α ε) : Bool :=
  l.specificAfter.isSome || l.genericAfter.isSome

/-- Void twin of `beforeEvents`. -/
def beforeEventsV (ls : List (LayerV α ε)) : List Event :=
  (ls.filter hasBeforeHookV).map (fun l => Event.before l.lid)

/-- Void twin of `afterEventsRev`. -/
def afterEventsRevV (ls : List (LayerV α ε)) : List Event :=
  (ls.reverse.filter hasAfterHookV).map (fun l => Event.after l.lid)

/-- `Strata::PrependLayer` (strata.h lines 105-106): `Strata<NewLayer,
Layers...>`, i.e. cons on the type-level layer list. -/
def PrependLayer (l : L) (ls : List L) : List L :=
  l :: ls

/-- `util::detail::EnabledLayers` (strata.h lines 260-273): keep the first
layer, via `PrependLayer`, exactly when `LayerTraits<FirstLayer>::
compiletimeEnabled` holds, then recurse on the rest.  The enablement flag
per layer type is the function `enabled`. -/
def EnabledLayers (enabled : L → Bool) : List L → List L
  | [] => []
  | first :: rest =>
    if enabled first then PrependLayer first (EnabledLayers enabled rest)
    else EnabledLayers enabled rest

/-- `util::detail::LayerFilterImpl<Layers...>` for a variadic layer list
(strata.h lines 276-280): delegates to `EnabledLayers`. -/
def LayerFilterVariadic (enabled : L → Bool) (ls : List L) : List L :=
  EnabledLayers enabled ls

/-- `util::detail::LayerFilterImpl<LayerPack<Layers...>>` (strata.h lines
283-287): the `LayerPack` specialization also delegates to
`EnabledLayers` on the pack's layers. -/
def LayerFilterPack (enabled : L → Bool) (pack : List L) : List L :=
  EnabledLayers enabled pack

/-- `LayerTraits<T>::compiletimeEnabled` (strata.h lines 188-192): the user
may supply a specialization (`userSpec l = some b`); the unspecialized
primary template yields `false`. -/
def LayerTraitsEnabled (userSpec : L → Option Bool) (l : L) : Bool :=
  match userSpec l with
  | some b => b
  | none => false

/-- `util::IsLayerEnabled` (strata.h lines 213-214): reads
`LayerTraits<Layer>::compiletimeEnabled`. -/
def IsLayerEnabled (userSpec : L → Option Bool) (l : L) : Bool :=
  LayerTraitsEnabled userSpec l

/-- `LayerState<T>` (strata.h lines 317-378): one value of type `T` plus the
registered observer callbacks.  Observers are identified abstractly by `O`;
an invocation of observer `o` with value `v` is recorded as the pair
`(o, v)` in the notification list a mutating operation returns. -/
structure LayerState (T O : Type) where
  data : T
  observers : List O

/-- `LayerState<T>::notifyObservers` (strata.h lines 371-377): call every
registered observer, in registration order, with the current value. -/
def LayerState.notifyObservers (s : LayerState T O) : List (O × T) :=
  s.observers.map (fun o => (o, s.data))

/-- `LayerState<T>::read` (strata.h lines 343-347): copy the value under the
lock; notifies nobody. -/
def LayerState.read (s : LayerState T O) : T × List (O × T) :=
  (s.data, [])

/-- `LayerState<T>::write` (strata.h lines 349-354): replace the value, then
notify the observers. -/
def LayerState.write (s : LayerState T O) (newData : T) :
    LayerState T O × List (O × T) :=
  let s2 : LayerState T O := { s with data := newData }
  (s2, s2.notifyObservers)

/-- `LayerState<T>::modify` (strata.h lines 356-362): mutate the value in
place with `func`, then notify the observers. -/
def LayerState.modify (s : LayerState T O) (func : T → T) :
    LayerState T O × List (O × T) :=
  let s2 : LayerState T O := { s with data := func s.data }
  (s2, s2.notifyObservers)

/-- `LayerState<T>::addObserver` (strata.h lines 364-368): append the
callback to the observer list. -/
def LayerState.addObserver (s : LayerState T O) (o : O) : LayerState T O :=
  { s with observers := s.observers ++ [o] }

/-- An `access()` scope (strata.h lines 326-341): the `Proxy` holds the lock
for its lifetime, member access through it applies some net mutation `f` to
the value, and the destructor calls `notifyObservers` unconditionally on
scope exit. -/
def LayerState.accessScope (s : LayerState T O) (f : T → T) :
    LayerState T O × List (O × T) :=
  let s2 : LayerState T O := { s with data := f s.data }
  (s2, s2.notifyObservers)

/-- `LayerStateWrapper<T>::operator->` (strata.h line 466): builds an
`access()` proxy, lets the caller act through it, and the proxy notifies on
destruction. -/
def LayerStateWrapper.arrowAccess (s : LayerState T O) (f : T → T) :
    LayerState T O × List (O × T) :=
  s.accessScope f

/-- The const overload of `LayerStateWrapper<T>::operator->` (strata.h line
467) used for pure reads: it also builds an `access()` proxy; the value is
only read, so the net mutation is the identity, yet the proxy destructor
still notifies. -/
def LayerStateWrapper.arrowAccessConst (s : LayerState T O) :
    LayerState T O × List (O × T) :=
  s.accessScope (fun d => d)

/-- The thread-local `LayerStateRegistry::currentContext` (strata.h line
392) is a default-constructed `std::string`, i.e. the empty string, on any
thread that never called `setCurrentContext`. -/
def defaultCurrentContext : String :=
  ""

/-- `LayerStateRegistry::setCurrentContext` (strata.h line 387): overwrite
the thread-local context string. -/
def setCurrentContext (_prev ctx : String) : String :=
  ctx

/-- `LayerStateRegistry::getCurrentContext` (strata.h line 389): read the
thread-local context string. -/
def getCurrentContext (ctx : String) : String :=
  ctx

/-- The per-type slice of `LayerStateRegistry` (strata.h lines 380-454):
a map from context key to store.  Store identity (the `shared_ptr` the
registry hands out) is modelled by a numeric id allocated from `nextId`. -/
structure LayerStateRegistry where
  nextId : Nat
  table : List (String × Nat)

/-- A registry with no stores. -/
def LayerStateRegistry.emptyR : LayerStateRegistry :=
  ⟨0, []⟩

/-- `LayerStateRegistry::getOrCreateState` (strata.h lines 400-413): return
the existing store for the key, or construct and register a fresh one. -/
def LayerStateRegistry.getOrCreateState (r : LayerStateRegistry) (key : String) :
    LayerStateRegistry × Nat :=
  match List.lookup key r.table with
  | some sid => (r, sid)
  | none => (⟨r.nextId + 1, r.table ++ [(key, r.nextId)]⟩, r.nextId)

/-- `LayerStateManager<T>::global` (strata.h lines 488-491): the store for
the literal key "global". -/
def LayerStateManager.globalStore (r : LayerStateRegistry) : LayerStateRegistry × Nat :=
  r.getOrCreateState "global"

/-- `LayerStateManager<T>::current` (strata.h lines 502-505): the store for
the key `getCurrentContext()` of the calling thread. -/
def LayerStateManager.currentStore (r : LayerStateRegistry) (ctx : String) :
    LayerStateRegistry × Nat :=
  r.getOrCreateState (getCurrentContext ctx)

/-- The After hook the probes resolve for a layer: the specific one when
present, else the generic one. -/
def resolvedAfter (l : LayerM α ρ ε) : Option (ρ → α → Except ε ρ) :=
  match l.specificAfter with
  | some h => some h
  | none => l.genericAfter

/-- Spec-side restatement of §4.3 step 6: the resolved After hooks are
applied to the result in reverse list order, each hook seeing the value the
previously invoked hook left, with exceptions short-circuiting. -/
def afterFoldSpec (ls : List (LayerM α ρ ε)) (res : ρ) (args : α) : Except ε ρ :=
  ls.reverse.foldl
    (fun acc l =>
      Except.bind acc (fun r =>
        match resolvedAfter l with
        | some h => h r args
        | none => Except.ok r))
    (Except.ok res)

/-- Void twin of `resolvedAfter`. -/
def resolvedAfterV (l : LayerV α ε) : Option (α → Except ε Unit) :=
  match l.specificAfter with
  | some h => some h
  | none => l.genericAfter

/-- Void twin of `afterFoldSpec`: the resolved After hooks applied to the
arguments only, in reverse list order. -/
def afterFoldSpecV (ls : List (LayerV α ε)) (args : α) : Except ε Unit :=
  ls.reverse.foldl
    (fun acc l =>
      Except.bind acc (fun _ =>
        match resolvedAfterV l with
        | some h => h args
        | none => Except.ok ()))
    (Except.ok ())

theorem applyBefore_fst (l : LayerM α ρ ε) (args : α) :
    (ApplyBeforeIfExists l args).fst =
      if hasBeforeHook l then [Event.before l.lid] else [] := by
  rcases l with ⟨lid, sb, gb, sa, ga⟩
  cases sb <;> cases gb <;> simp [ApplyBeforeIfExists, hasBeforeHook]

theorem applyBefore_error_fst (l : LayerM α ρ ε) (args : α) (e : ε)
    (h : (ApplyBeforeIfExists l args).snd = Except.error e) :
    (ApplyBeforeIfExists l args).fst = [Event.before l.lid] := by
  rcases l with ⟨lid, sb, gb, sa, ga⟩
  cases sb with
  | some hk => simp [ApplyBeforeIfExists]
  | none =>
    cases gb with
    | some hk => simp [ApplyBeforeIfExists]
    | none => simp [ApplyBeforeIfExists] at h

theorem runBefores_ok (ls : List (LayerM α ρ ε)) (args : α)
    (h : ∀ l ∈ ls, (ApplyBeforeIfExists l args).snd = Except.ok ()) :
    runBefores ls args = (beforeEvents ls, Except.ok ()) := by
  induction ls with
  | nil => simp [runBefores, beforeEvents]
  | cons l rest ih =>
    have hl : (ApplyBeforeIfExists l args).snd = Except.ok () :=
      h l (List.mem_cons_self l rest)
    have hr := ih (fun l2 hm => h l2 (List.mem_cons_of_mem l hm))
    simp only [runBefores, hl, hr]
    rw [applyBefore_fst]
    by_cases hb : hasBeforeHook l <;>
      simp [beforeEvents, List.filter_cons, hb]

theorem runBefores_error (pre : List (LayerM α ρ ε)) (l : LayerM α ρ ε)
    (post : List (LayerM α ρ ε)) (args : α) (e : ε)
    (hpre : ∀ l2 ∈ pre, (ApplyBeforeIfExists l2 args).snd = Except.ok ())
    (hl : (ApplyBeforeIfExists l args).snd = Except.error e) :
    runBefores (pre ++ l :: post) args =
      (beforeEvents pre ++ [Event.before l.lid], Except.error e) := by
  induction pre with
  | nil =>
    simp only [List.nil_append, runBefores, hl]
    simp [beforeEvents, applyBefore_error_fst l args e hl]
  | cons p0 prest ih =>
    have h0 : (ApplyBeforeIfExists p0 args).snd = Except.ok () :=
      hpre p0 (List.mem_cons_self p0 prest)
    have hrest := ih (fun l2 hm => hpre l2 (List.mem_cons_of_mem p0 hm))
    simp only [List.cons_append, runBefores, h0]
    rw [applyBefore_fst]
    by_cases hb : hasBeforeHook p0 <;>
      simp [hrest, beforeEvents, List.filter_cons, hb, List.append_assoc]

theorem applyAfterOnce_fst (l : LayerM α ρ ε) (r : ρ) (args : α) :
    (ApplyAfterOnce l r args).fst =
      if hasAfterHook l then [Event.after l.lid] else [] := by
  rcases l with ⟨lid, sb, gb, sa, ga⟩
  cases sa <;> cases ga <;> simp [ApplyAfterOnce, hasAfterHook]

theorem applyAfterOnce_snd (l : LayerM α ρ ε) (r : ρ) (args : α) :
    (ApplyAfterOnce l r args).snd =
      match resolvedAfter l with
      | some h => h r args
      | none => Except.ok r := by
  rcases l with ⟨lid, sb, gb, sa, ga⟩
  cases sa <;> cases ga <;> simp [ApplyAfterOnce, resolvedAfter]

theorem afterFoldSpec_cons (first : LayerM α ρ ε) (rest : List (LayerM α ρ ε))
    (res : ρ) (args : α) :
    afterFoldSpec (first :: rest) res args =
      Except.bind (afterFoldSpec rest res args) (fun r =>
        match resolvedAfter first with
        | some h => h r args
        | none => Except.ok r) := by
  simp [afterFoldSpec, List.reverse_cons, List.foldl_append]

theorem applyAfterChain_snd (ls : List (LayerM α ρ ε)) (res : ρ) (args : α) :
    (ApplyAfterIfExists ls res args).snd = afterFoldSpec ls res args := by
  induction ls with
  | nil => simp [ApplyAfterIfExists, afterFoldSpec]
  | cons first rest ih =>
    rw [afterFoldSpec_cons, ← ih]
    simp only [ApplyAfterIfExists]
    cases hc : (ApplyAfterIfExists rest res args).snd with
    | error e => simp [Except.bind]
    | ok r2 => simp [Except.bind, applyAfterOnce_snd]

theorem applyAfterChain_ok (ls : List (LayerM α ρ ε)) (args : α)
    (ha : ∀ l ∈ ls, ∀ r : ρ, ∃ r2 : ρ, (ApplyAfterOnce l r args).snd = Except.ok r2)
    (res : ρ) :
    (ApplyAfterIfExists ls res args).fst = afterEventsRev ls ∧
      ∃ rf : ρ, (ApplyAfterIfExists ls res args).snd = Except.ok rf := by
  induction ls with
  | nil =>
    exact ⟨by simp [ApplyAfterIfExists, afterEventsRev], res, by simp [ApplyAfterIfExists]⟩
  | cons first rest ih =>
    obtain ⟨ht, rf, hs⟩ := ih (fun l hm r => ha l (List.mem_cons_of_mem first hm) r)
    obtain ⟨r3, h3⟩ := ha first (List.mem_cons_self first rest) rf
    constructor
    · simp only [ApplyAfterIfExists, hs]
      rw [ht, applyAfterOnce_fst]
      by_cases hk : hasAfterHook first <;>
        simp [afterEventsRev, hk, List.filter_append, List.filter_cons]
    · refine ⟨r3, ?_⟩
      simp only [ApplyAfterIfExists, hs]
      exact h3

theorem applyBeforeV_fst (l : LayerV α ε) (args : α) :
    (ApplyBeforeIfExistsV l args).fst =
      if hasBeforeHookV l then [Event.before l.lid] else [] := by
  rcases l with ⟨lid, sb, gb, sa, ga⟩
  cases sb <;> cases gb <;> simp [ApplyBeforeIfExistsV, hasBeforeHookV]

theorem applyBeforeV_error_fst (l : LayerV α ε) (args : α) (e : ε)
    (h : (ApplyBeforeIfExistsV l args).snd = Except.error e) :
    (ApplyBeforeIfExistsV l args).fst = [Event.before l.lid] := by
  rcases l with ⟨lid, sb, gb, sa, ga⟩
  cases sb with
  | some hk => simp [ApplyBeforeIfExistsV]
  | none =>
    cases gb with
    | some hk => simp [ApplyBeforeIfExistsV]
    | none => simp [ApplyBeforeIfExistsV] at h

theorem runBeforesV_ok (ls : List (LayerV α ε)) (args : α)
    (h : ∀ l ∈ ls, (ApplyBeforeIfExistsV l args).snd = Except.ok ()) :
    runBeforesV ls args = (beforeEventsV ls, Except.ok ()) := by
  induction ls with
  | nil => simp [runBeforesV, beforeEventsV]
  | cons l rest ih =>
    have hl : (ApplyBeforeIfExistsV l args).snd = Except.ok () :=
      h l (List.mem_cons_self l rest)
    have hr := ih (fun l2 hm => h l2 (List.mem_cons_of_mem l hm))
    simp only [runBeforesV, hl, hr]
    rw [applyBeforeV_fst]
    by_cases hb : hasBeforeHookV l <;>
      simp [beforeEventsV, List.filter_cons, hb]

theorem runBeforesV_error (pre : List (LayerV α ε)) (l : LayerV α ε)
    (post : List (LayerV α ε)) (args : α) (e : ε)
    (hpre : ∀ l2 ∈ pre, (ApplyBeforeIfExistsV l2 args).snd = Except.ok ())
    (hl : (ApplyBeforeIfExistsV l args).snd = Except.error e) :
    runBeforesV (pre ++ l :: post) args =
      (beforeEventsV pre ++ [Event.before l.lid], Except.error e) := by
  induction pre with
  | nil =>
    simp only [List.nil_append, runBeforesV, hl]
    simp [beforeEventsV, applyBeforeV_error_fst l args e hl]
  | cons p0 prest ih =>
    have h0 : (ApplyBeforeIfExistsV p0 args).snd = Except.ok () :=
      hpre p0 (List.mem_cons_self p0 prest)
    have hrest := ih (fun l2 hm => hpre l2 (List.mem_cons_of_mem p0 hm))
    simp only [List.cons_append, runBeforesV, h0]
    rw [applyBeforeV_fst]
    by_cases hb : hasBeforeHookV p0 <;>
      simp [hrest, beforeEventsV, List.filter_cons, hb, List.append_assoc]

theorem applyAfterOnceV_fst (l : LayerV α ε) (args : α) :
    (ApplyAfterOnceV l args).fst =
      if hasAfterHookV l then [Event.after l.lid] else [] := by
  rcases l with ⟨lid, sb, gb, sa, ga⟩
  cases sa <;> cases ga <;> simp [ApplyAfterOnceV, hasAfterHookV]

theorem applyAfterOnceV_snd (l : LayerV α ε) (args : α) :
    (ApplyAfterOnceV l args).snd =
      match resolvedAfterV l with
      | some h => h args
      | none => Except.ok () := by
  rcases l with ⟨lid, sb, gb, sa, ga⟩
  cases sa <;> cases ga <;> simp [ApplyAfterOnceV, resolvedAfterV]

theorem afterFoldSpecV_cons (first : LayerV α ε) (rest : List (LayerV α ε)) (args : α) :
    afterFoldSpecV (first :: rest) args =
      Except.bind (afterFoldSpecV rest args) (fun _ =>
        match resolvedAfterV first with
        | some h => h args
        | none => Except.ok ()) := by
  simp [afterFoldSpecV, List.reverse_cons, List.foldl_append]

theorem applyAfterChainV_snd (ls : List (LayerV α ε)) (args : α) :
    (ApplyAfterIfExistsV ls args).snd = afterFoldSpecV ls args := by
  induction ls with
  | nil => simp [ApplyAfterIfExistsV, afterFoldSpecV]
  | cons first rest ih =>
    rw [afterFoldSpecV_cons, ← ih]
    simp only [ApplyAfterIfExistsV]
    cases hc : (ApplyAfterIfExistsV rest args).snd with
    | error e => simp [Except.bind]
    | ok r2 => simp [Except.bind, applyAfterOnceV_snd]

theorem applyAfterChainV_ok (ls : List (LayerV α ε)) (args : α)
    (ha : ∀ l ∈ ls, (ApplyAfterOnceV l args).snd = Except.ok ()) :
    ApplyAfterIfExistsV ls args = (afterEventsRevV ls, Except.ok ()) := by
  induction ls with
  | nil => simp [ApplyAfterIfExistsV, afterEventsRevV]
  | cons first rest ih =>
    have hrest := ih (fun l hm => ha l (List.mem_cons_of_mem first hm))
    have h0 : (ApplyAfterOnceV first args).snd = Except.ok () :=
      ha first (List.mem_cons_self first rest)
    simp only [ApplyAfterIfExistsV, hrest]
    rw [applyAfterOnceV_fst]
    by_cases hk : hasAfterHookV first <;>
      simp [h0, afterEventsRevV, hk, List.filter_append, List.filter_cons]

/-- C1: for every operation run through a pipeline with a non-empty layer
list, when no hook and not the core function faults, the resolved Before
hooks are entered exactly in list order L1..Ln, then the core function
runs, then the resolved After hooks are entered exactly in reverse list
order Ln..L1 (symmetric nesting); shown for value-returning and for void
operations. -/
theorem exec_symmetric_nesting :
    (∀ (α ρ ε : Type) (ls : List (LayerM α ρ ε)) (func : α → Except ε ρ)
        (args : α) (res : ρ),
      ls ≠ [] →
      (∀ l ∈ ls, (ApplyBeforeIfExists l args).snd = Except.ok ()) →
      func args = Except.ok res →
      (∀ l ∈ ls, ∀ r : ρ, ∃ r2 : ρ, (ApplyAfterOnce l r args).snd = Except.ok r2) →
      (Exec ls func args).fst =
        beforeEvents ls ++ [Event.core] ++ afterEventsRev ls) ∧
    (∀ (α ε : Type) (ls : List (LayerV α ε)) (func : α → Except ε Unit) (args : α),
      ls ≠ [] →
      (∀ l ∈ ls, (ApplyBeforeIfExistsV l args).snd = Except.ok ()) →
      func args = Except.ok () →
      (∀ l ∈ ls, (ApplyAfterOnceV l args).snd = Except.ok ()) →
      (ExecVoid ls func args).fst =
        beforeEventsV ls ++ [Event.core] ++ afterEventsRevV ls) := by
  constructor
  · intro α ρ ε ls func args res hne hb hc ha
    cases ls with
    | nil => exact absurd rfl hne
    | cons l0 rest =>
      have hrb := runBefores_ok (l0 :: rest) args hb
      obtain ⟨hct, rf, hcs⟩ := applyAfterChain_ok (l0 :: rest) args ha res
      simp [Exec, hrb, hc, hct]
  · intro α ε ls func args hne hb hc ha
    cases ls with
    | nil => exact absurd rfl hne
    | cons l0 rest =>
      have hrb := runBeforesV_ok (l0 :: rest) args hb
      have hca := applyAfterChainV_ok (l0 :: rest) args ha
      simp [ExecVoid, hrb, hc, hca]

/-- A layer with an operation-specific Before hook and a rewriting specific
After hook, used to instantiate the pipeline theorems. -/
def wLayerA : LayerM Nat Nat Nat :=
  ⟨0, some (fun _ => Except.ok ()), none, some (fun r _ => Except.ok (r + 1)), none⟩

/-- A layer with only generic hooks, the After one doubling the result. -/
def wLayerB : LayerM Nat Nat Nat :=
  ⟨1, none, some (fun _ => Except.ok ()), none, some (fun r _ => Except.ok (r * 2))⟩

/-- A layer whose Before hook throws 42. -/
def wLayerT : LayerM Nat Nat Nat :=
  ⟨2, some (fun _ => Except.error 42), none, none, none⟩

/-- A void-operation layer with a specific Before and a specific After. -/
def wLayerVA : LayerV Nat Nat :=
  ⟨3, some (fun _ => Except.ok ()), none, some (fun _ => Except.ok ()), none⟩

/-- Witness for C1 at a concrete two-layer pipeline. -/
theorem exec_symmetric_nesting_witness :
    (Exec [wLayerA, wLayerB] (fun n => Except.ok (n + 10)) 5).fst =
      beforeEvents [wLayerA, wLayerB] ++ [Event.core] ++
        afterEventsRev [wLayerA, wLayerB] := by
  refine exec_symmetric_nesting.1 Nat Nat Nat [wLayerA, wLayerB]
    (fun n => Except.ok (n + 10)) 5 15 (by simp) ?_ rfl ?_
  · intro l hl
    simp only [List.mem_cons, List.not_mem_nil, or_false] at hl
    rcases hl with rfl | rfl <;> rfl
  · intro l hl r
    simp only [List.mem_cons, List.not_mem_nil, or_false] at hl
    rcases hl with rfl | rfl
    · exact ⟨r + 1, rfl⟩
    · exact ⟨r * 2, rfl⟩

/-- C2: a Before hook that throws prevents every later Before hook, the
core function, and every After hook from running, and the exception
reaches the caller of Exec unmodified — the returned trace holds exactly
the Before entries up to and including the throwing hook; a fault in the
core function likewise prevents every After hook and propagates unchanged.
Shown for value-returning and for void operations. -/
theorem exec_exception_paths :
    (∀ (α ρ ε : Type) (pre post : List (LayerM α ρ ε)) (l : LayerM α ρ ε)
        (func : α → Except ε ρ) (args : α) (e : ε),
      (∀ l2 ∈ pre, (ApplyBeforeIfExists l2 args).snd = Except.ok ()) →
      (ApplyBeforeIfExists l args).snd = Except.error e →
      Exec (pre ++ l :: post) func args =
        (beforeEvents pre ++ [Event.before l.lid], Except.error e)) ∧
    (∀ (α ρ ε : Type) (ls : List (LayerM α ρ ε)) (func : α → Except ε ρ)
        (args : α) (e : ε),
      (∀ l ∈ ls, (ApplyBeforeIfExists l args).snd = Except.ok ()) →
      func args = Except.error e →
      Exec ls func args = (beforeEvents ls ++ [Event.core], Except.error e)) ∧
    (∀ (α ε : Type) (pre post : List (LayerV α ε)) (l : LayerV α ε)
        (func : α → Except ε Unit) (args : α) (e : ε),
      (∀ l2 ∈ pre, (ApplyBeforeIfExistsV l2 args).snd = Except.ok ()) →
      (ApplyBeforeIfExistsV l args).snd = Except.error e →
      ExecVoid (pre ++ l :: post) func args =
        (beforeEventsV pre ++ [Event.before l.lid], Except.error e)) ∧
    (∀ (α ε : Type) (ls : List (LayerV α ε)) (func : α → Except ε Unit)
        (args : α) (e : ε),
      (∀ l ∈ ls, (ApplyBeforeIfExistsV l args).snd = Except.ok ()) →
      func args = Except.error e →
      ExecVoid ls func args = (beforeEventsV ls ++ [Event.core], Except.error e)) := by
  refine ⟨?_, ?_, ?_, ?_⟩
  · intro α ρ ε pre post l func args e hpre hl
    have hrb := runBefores_error pre l post args e hpre hl
    cases pre with
    | nil =>
      simp only [List.nil_append] at hrb
      simp [Exec, hrb, beforeEvents]
    | cons p0 prest =>
      simp only [List.cons_append] at hrb
      simp [Exec, hrb]
  · intro α ρ ε ls func args e hb hc
    cases ls with
    | nil => simp [Exec, hc, beforeEvents]
    | cons l0 rest =>
      have hrb := runBefores_ok (l0 :: rest) args hb
      simp [Exec, hrb, hc]
  · intro α ε pre post l func args e hpre hl
    have hrb := runBeforesV_error pre l post args e hpre hl
    cases pre with
    | nil =>
      simp only [List.nil_append] at hrb
      simp [ExecVoid, hrb, beforeEventsV]
    | cons p0 prest =>
      simp only [List.cons_append] at hrb
      simp [ExecVoid, hrb]
  · intro α ε ls func args e hb hc
    cases ls with
    | nil => simp [ExecVoid, hc, beforeEventsV]
    | cons l0 rest =>
      have hrb := runBeforesV_ok (l0 :: rest) args hb
      simp [ExecVoid, hrb, hc]

/-- Witness for C2: a throwing Before hook aborts the pipeline, and a
throwing core function skips the After hooks, at concrete pipelines. -/
theorem exec_exception_paths_witness :
    Exec ([wLayerA] ++ wLayerT :: [wLayerB]) (fun n => Except.ok (n + 10)) 5 =
      (beforeEvents [wLayerA] ++ [Event.before wLayerT.lid], Except.error 42) ∧
    Exec [wLayerA] (fun _ => Except.error 9) 5 =
      (beforeEvents [wLayerA] ++ [Event.core], Except.error 9) := by
  constructor
  · refine exec_exception_paths.1 Nat Nat Nat [wLayerA] [wLayerB] wLayerT
      (fun n => Except.ok (n + 10)) 5 42 ?_ rfl
    intro l2 hm
    simp only [List.mem_cons, List.not_mem_nil, or_false] at hm
    subst hm; rfl
  · refine exec_exception_paths.2.1 Nat Nat Nat [wLayerA]
      (fun _ => Except.error 9) 5 9 ?_ rfl
    intro l hm
    simp only [List.mem_cons, List.not_mem_nil, or_false] at hm
    subst hm; rfl

/-- C5: when the Before hooks and the core function succeed, the value
Exec returns is the core result threaded through the resolved After hooks
in reverse list order — each later-invoked (earlier-in-list) hook receives
the value the previously invoked hook left in the result reference and may
rewrite it (`afterFoldSpec`); for a void operation the After hooks receive
only the arguments (`afterFoldSpecV`). -/
theorem exec_after_rewrite :
    (∀ (α ρ ε : Type) (ls : List (LayerM α ρ ε)) (func : α → Except ε ρ)
        (args : α) (res : ρ),
      (∀ l ∈ ls, (ApplyBeforeIfExists l args).snd = Except.ok ()) →
      func args = Except.ok res →
      (Exec ls func args).snd = afterFoldSpec ls res args) ∧
    (∀ (α ε : Type) (ls : List (LayerV α ε)) (func : α → Except ε Unit) (args : α),
      (∀ l ∈ ls, (ApplyBeforeIfExistsV l args).snd = Except.ok ()) →
      func args = Except.ok () →
      (ExecVoid ls func args).snd = afterFoldSpecV ls args) := by
  constructor
  · intro α ρ ε ls func args res hb hc
    cases ls with
    | nil => simp [Exec, hc, afterFoldSpec]
    | cons l0 rest =>
      have hrb := runBefores_ok (l0 :: rest) args hb
      simp [Exec, hrb, hc, applyAfterChain_snd]
  · intro α ε ls func args hb hc
    cases ls with
    | nil => simp [ExecVoid, hc, afterFoldSpecV]
    | cons l0 rest =>
      have hrb := runBeforesV_ok (l0 :: rest) args hb
      simp [ExecVoid, hrb, hc, applyAfterChainV_snd]

/-- Witness for C5: with core result 15, wLayerB's After doubles it to 30
and then wLayerA's After adds one, so Exec returns 31. -/
theorem exec_after_rewrite_witness :
    (Exec [wLayerA, wLayerB] (fun n => Except.ok (n + 10)) 5).snd =
      afterFoldSpec [wLayerA, wLayerB] 15 5 := by
  refine exec_after_rewrite.1 Nat Nat Nat [wLayerA, wLayerB]
    (fun n => Except.ok (n + 10)) 5 15 ?_ rfl
  intro l hl
  simp only [List.mem_cons, List.not_mem_nil, or_false] at hl
  rcases hl with rfl | rfl <;> rfl

theorem runBefores_noHook_cons (lid : Nat) (rest : List (LayerM α ρ ε)) (args : α) :
    runBefores (⟨lid, none, none, none, none⟩ :: rest) args = runBefores rest args := by
  simp [runBefores, ApplyBeforeIfExists]

theorem applyAfterChain_noHook_cons (lid : Nat) (rest : List (LayerM α ρ ε))
    (res : ρ) (args : α) :
    ApplyAfterIfExists (⟨lid, none, none, none, none⟩ :: rest) res args =
      ApplyAfterIfExists rest res args := by
  rcases hp : ApplyAfterIfExists rest res args with ⟨t, r⟩
  simp only [ApplyAfterIfExists, hp]
  cases r with
  | error e => simp
  | ok r2 => simp [ApplyAfterOnce]

theorem exec_noHook_cons (lid : Nat) (rest : List (LayerM α ρ ε))
    (func : α → Except ε ρ) (args : α) :
    Exec (⟨lid, none, none, none, none⟩ :: rest) func args = Exec rest func args := by
  cases rest with
  | nil =>
    cases hf : func args with
    | error e =>
      simp [Exec, runBefores, ApplyBeforeIfExists, hf]
    | ok res =>
      simp [Exec, runBefores, ApplyBeforeIfExists, ApplyAfterIfExists, ApplyAfterOnce, hf]
  | cons r0 rrest =>
    rcases hb : runBefores (r0 :: rrest) args with ⟨tb, rb⟩
    simp only [Exec, List.isEmpty_cons, Bool.false_eq_true, if_false,
      runBefores_noHook_cons, hb]
    cases rb with
    | error e => simp
    | ok u =>
      cases hf : func args with
      | error e => simp
      | ok res => simp [applyAfterChain_noHook_cons]

theorem runBeforesV_noHook_cons (lid : Nat) (rest : List (LayerV α ε)) (args : α) :
    runBeforesV (⟨lid, none, none, none, none⟩ :: rest) args = runBeforesV rest args := by
  simp [runBeforesV, ApplyBeforeIfExistsV]

theorem applyAfterChainV_noHook_cons (lid : Nat) (rest : List (LayerV α ε)) (args : α) :
    ApplyAfterIfExistsV (⟨lid, none, none, none, none⟩ :: rest) args =
      ApplyAfterIfExistsV rest args := by
  rcases hp : ApplyAfterIfExistsV rest args with ⟨t, r⟩
  simp only [ApplyAfterIfExistsV, hp]
  cases r with
  | error e => simp
  | ok r2 => simp [ApplyAfterOnceV]

theorem execVoid_noHook_cons (lid : Nat) (r0 : LayerV α ε) (rrest : List (LayerV α ε))
    (func : α → Except ε Unit) (args : α) :
    ExecVoid (⟨lid, none, none, none, none⟩ :: r0 :: rrest) func args =
      ExecVoid (r0 :: rrest) func args := by
  rcases hb : runBeforesV (r0 :: rrest) args with ⟨tb, rb⟩
  simp only [ExecVoid, List.isEmpty_cons, Bool.false_eq_true, if_false,
    runBeforesV_noHook_cons, hb]
  cases rb with
  | error e => simp
  | ok u =>
    cases hf : func args with
    | error e => simp
    | ok v => simp [applyAfterChainV_noHook_cons]

/-- C4: hook resolution for each (layer, operation) pair and each hook kind
independently follows the fixed priority: the operation-specific hook is
called when present (a generic hook present alongside it is never
consulted); otherwise the generic hook is called exactly as a specific one
would be; otherwise nothing is called.  A layer defining neither hook
contributes no call and no error: running a pipeline with such a layer
prepended is indistinguishable from running it without the layer (for a
void pipeline this is stated for a non-empty remainder; the empty void
pipeline is the separate defect recorded at C3). -/
theorem hook_resolution_priority :
    (∀ (α ρ ε : Type) (lid : Nat) (sb gb : α → Except ε Unit)
        (sa ga : Option (ρ → α → Except ε ρ)) (args : α),
      ApplyBeforeIfExists ⟨lid, some sb, some gb, sa, ga⟩ args =
        ApplyBeforeIfExists ⟨lid, some sb, none, sa, ga⟩ args) ∧
    (∀ (α ρ ε : Type) (lid : Nat) (gb : α → Except ε Unit)
        (sa ga : Option (ρ → α → Except ε ρ)) (args : α),
      ApplyBeforeIfExists ⟨lid, none, some gb, sa, ga⟩ args =
        ApplyBeforeIfExists ⟨lid, some gb, none, sa, ga⟩ args) ∧
    (∀ (α ρ ε : Type) (lid : Nat) (sa ga : Option (ρ → α → Except ε ρ)) (args : α),
      ApplyBeforeIfExists (⟨lid, none, none, sa, ga⟩ : LayerM α ρ ε) args =
        ([], Except.ok ())) ∧
    (∀ (α ρ ε : Type) (lid : Nat) (sb gb : Option (α → Except ε Unit))
        (sa ga : ρ → α → Except ε ρ) (r : ρ) (args : α),
      ApplyAfterOnce ⟨lid, sb, gb, some sa, some ga⟩ r args =
        ApplyAfterOnce ⟨lid, sb, gb, some sa, none⟩ r args) ∧
    (∀ (α ρ ε : Type) (lid : Nat) (sb gb : Option (α → Except ε Unit))
        (ga : ρ → α → Except ε ρ) (r : ρ) (args : α),
      ApplyAfterOnce ⟨lid, sb, gb, none, some ga⟩ r args =
        ApplyAfterOnce ⟨lid, sb, gb, some ga, none⟩ r args) ∧
    (∀ (α ρ ε : Type) (lid : Nat) (sb gb : Option (α → Except ε Unit))
        (r : ρ) (args : α),
      ApplyAfterOnce (⟨lid, sb, gb, none, none⟩ : LayerM α ρ ε) r args =
        ([], Except.ok r)) ∧
    (∀ (α ρ ε : Type) (lid : Nat) (rest : List (LayerM α ρ ε))
        (func : α → Except ε ρ) (args : α),
      Exec (⟨lid, none, none, none, none⟩ :: rest) func args = Exec rest func args) ∧
    (∀ (α ε : Type) (lid : Nat) (rest : List (LayerV α ε))
        (func : α → Except ε Unit) (args : α),
      rest ≠ [] →
      ExecVoid (⟨lid, none, none, none, none⟩ :: rest) func args =
        ExecVoid rest func args) := by
  refine ⟨?_, ?_, ?_, ?_, ?_, ?_, ?_, ?_⟩
  · intro α ρ ε lid sb gb sa ga args
    rfl
  · intro α ρ ε lid gb sa ga args
    rfl
  · intro α ρ ε lid sa ga args
    rfl
  · intro α ρ ε lid sb gb sa ga r args
    rfl
  · intro α ρ ε lid sb gb ga r args
    rfl
  · intro α ρ ε lid sb gb r args
    rfl
  · intro α ρ ε lid rest func args
    exact exec_noHook_cons lid rest func args
  · intro α ε lid rest func args hne
    cases rest with
    | nil => exact absurd rfl hne
    | cons r0 rrest => exact execVoid_noHook_cons lid r0 rrest func args

/-- Witness for C4: prepending a hook-less layer to a non-empty void
pipeline leaves the execution unchanged. -/
theorem hook_resolution_priority_witness :
    ExecVoid (⟨9, none, none, none, none⟩ :: [wLayerVA]) (fun _ => Except.ok ()) 3 =
      ExecVoid [wLayerVA] (fun _ => Except.ok ()) 3 :=
  hook_resolution_priority.2.2.2.2.2.2.2 Nat Nat 9 [wLayerVA]
    (fun _ => Except.ok ()) 3 (by simp)

/-- C3 (defect): for a void operation executed on the empty layer list the
code does not invoke the wrapped function exactly once.  The empty-list
branch at strata.h line 76 runs `CORE_FUNC();` without returning, so
control falls through and line 91 invokes the core function a second time
(line 92 then calls `ApplyAfterIfExists<Op>(args...)`, whose `First`
template parameter is not deducible for the empty pack, so the
instantiation does not even compile); the model of that control flow shows
two core invocations.  A value-returning operation on the empty list does
behave as claimed: one invocation whose result is returned. -/
theorem execVoid_empty_double_invoke :
    ExecVoid ([] : List (LayerV Nat Nat)) (fun _ => Except.ok ()) 7 =
      ([Event.core, Event.core], Except.ok ()) ∧
    Exec ([] : List (LayerM Nat Nat Nat)) (fun n => Except.ok (n + 1)) 7 =
      ([Event.core], Except.ok 8) :=
  ⟨rfl, rfl⟩

theorem enabledLayers_eq_filter (enabled : L → Bool) (ls : List L) :
    EnabledLayers enabled ls = ls.filter enabled := by
  induction ls with
  | nil => simp [EnabledLayers]
  | cons first rest ih =>
    by_cases hf : enabled first <;>
      simp [EnabledLayers, PrependLayer, List.filter_cons, hf, ih]

/-- C6: for every input sequence of layer types, whether given variadically
or as a LayerPack, LayerFilter produces exactly the subsequence of layers
whose enablement flag is true, in the input's relative order — it equals
`List.filter` on the flag. -/
theorem layerFilter_enabled_subsequence :
    ∀ (L : Type) (enabled : L → Bool) (ls : List L),
      LayerFilterVariadic enabled ls = ls.filter enabled ∧
        LayerFilterPack enabled ls = ls.filter enabled := by
  intro L enabled ls
  exact ⟨enabledLayers_eq_filter enabled ls, enabledLayers_eq_filter enabled ls⟩

/-- C9: a layer type with no user-provided LayerTraits specialization gets
the primary template, whose `compiletimeEnabled` is false, so
`IsLayerEnabled` is false and LayerFilter leaves the layer out of the
produced pipeline. -/
theorem unspecialized_layer_disabled :
    ∀ (L : Type) (userSpec : L → Option Bool) (l : L) (ls : List L),
      userSpec l = none →
      IsLayerEnabled userSpec l = false ∧
        l ∉ LayerFilterVariadic (LayerTraitsEnabled userSpec) ls := by
  intro L userSpec l ls h
  have he : LayerTraitsEnabled userSpec l = false := by
    simp [LayerTraitsEnabled, h]
  refine ⟨by simp [IsLayerEnabled, he], ?_⟩
  intro hmem
  rw [LayerFilterVariadic, enabledLayers_eq_filter] at hmem
  have hp := List.of_mem_filter hmem
  rw [he] at hp
  exact Bool.false_ne_true hp

/-- Witness for C9 over Nat-labelled layers with no specialization at all. -/
theorem unspecialized_layer_disabled_witness :
    IsLayerEnabled (fun _ : Nat => (none : Option Bool)) 0 = false ∧
      0 ∉ LayerFilterVariadic (LayerTraitsEnabled (fun _ : Nat => none)) [0, 1] :=
  unspecialized_layer_disabled Nat (fun _ => none) 0 [0, 1] rfl

/-- C7: every successful write, modify, and access-scope exit invokes each
registered observer exactly once, in registration order (the list order
`addObserver` appends to), with the post-mutation value of the state,
while read invokes no observer and returns the held value. -/
theorem state_notification_discipline :
    ∀ (T O : Type) (s : LayerState T O) (v : T) (f : T → T) (o : O),
      (s.write v).snd = s.observers.map (fun ob => (ob, v)) ∧
      (s.write v).fst.data = v ∧
      (s.modify f).snd = s.observers.map (fun ob => (ob, f s.data)) ∧
      (s.modify f).fst.data = f s.data ∧
      (s.accessScope f).snd = s.observers.map (fun ob => (ob, f s.data)) ∧
      (s.accessScope f).fst.data = f s.data ∧
      s.read = (s.data, []) ∧
      (s.addObserver o).observers = s.observers ++ [o] := by
  intro T O s v f o
  exact ⟨rfl, rfl, rfl, rfl, rfl, rfl, rfl, rfl⟩

/-- C10: both overloads of `LayerStateWrapper::operator->` construct an
`access()` proxy whose scope exit notifies every registered observer once;
in particular a read-only field access through the const overload leaves
the state value unchanged and still sends every observer one notification
carrying that unchanged value. -/
theorem wrapper_arrow_always_notifies :
    ∀ (T O : Type) (s : LayerState T O) (f : T → T),
      LayerStateWrapper.arrowAccessConst s =
        (s, s.observers.map (fun o => (o, s.data))) ∧
      (LayerStateWrapper.arrowAccess s f).snd =
        s.observers.map (fun o => (o, f s.data)) := by
  intro T O s f
  exact ⟨rfl, rfl⟩

/-- C8 counterexample: the thread-local current context of a fresh thread is
a default-constructed std::string, the empty string — not the literal
"global" — so `current()` resolves a different store than `global()`. -/
theorem current_default_not_global :
    getCurrentContext defaultCurrentContext ≠ "global" ∧
    (LayerStateManager.currentStore LayerStateRegistry.emptyR defaultCurrentContext).snd ≠
      (LayerStateManager.globalStore
        (LayerStateManager.currentStore LayerStateRegistry.emptyR
          defaultCurrentContext).fst).snd := by
  decide

/-- C8 amended: on a thread whose context was never set, `current()` uses
the empty-string key and returns a handle to a store distinct from the one
`global()` returns; only after `setCurrentContext("global")` do the two
resolve the same store. -/
theorem current_context_default_empty :
    getCurrentContext defaultCurrentContext = "" ∧
    (∀ (r : LayerStateRegistry) (prev : String),
      LayerStateManager.currentStore r (setCurrentContext prev "global") =
        LayerStateManager.globalStore r) ∧
    (LayerStateManager.currentStore LayerStateRegistry.emptyR defaultCurrentContext).snd ≠
      (LayerStateManager.globalStore
        (LayerStateManager.currentStore LayerStateRegistry.emptyR
          defaultCurrentContext).fst).snd := by
  refine ⟨rfl, fun r prev => rfl, by decide⟩
